import Mathlib

/-!
Verification development for the s3audit bucket auditing tool.

The Rust sources are embedded shallowly:
* `serde_json::Value` becomes the inductive `Value`; indexing with a string
  key returns `Value.null` when the key is missing or the value is not an
  object, exactly as serde_json's `Index<&str>` does.
* Functions that can panic (`.expect`, `.unwrap`) become `Option`-returning
  functions, `none` modelling the panic.
* `usize` counters become `Nat` (the counts here cannot overflow in any
  scenario the claims quantify over, and Rust would abort on overflow rather
  than wrap).
* Rust `HashSet<Audit>` becomes `Finset Audit`; iteration order of a HashSet
  is unspecified, so `enabled()` is modelled by the member set itself.
-/

namespace S3Audit

/-- JSON values, mirroring `serde_json::Value`.  Numbers are irrelevant to
every claim, so they are carried as `Int`. -/
inductive Value where
  | null : Value
  | bool : Bool → Value
  | num : Int → Value
  | str : String → Value
  | arr : List Value → Value
  | obj : List (String × Value) → Value

/-- Indexing `v["key"]` as serde_json's `Index<&str>` implements it: a lookup
in an object, and `Null` for a missing key or a non-object value. -/
def Value.index (v : Value) (key : String) : Value :=
  match v with
  | .obj fields =>
    match fields.lookup key with
    | some w => w
    | none => .null
  | _ => .null

/-- Models `Value::as_str`. -/
def Value.as_str : Value → Option String
  | .str s => some s
  | _ => none

/-- Models `Value::as_array`. -/
def Value.as_array : Value → Option (List Value)
  | .arr xs => some xs
  | _ => none

/-- The `WILDCARD` constant from `actions.rs` / `principals.rs`. -/
def WILDCARD : String := "*"

/-- The `CLOUDFRONT_OAI` constant from `principals.rs`. -/
def CLOUDFRONT_OAI : String :=
  "arn:aws:iam::cloudfront:user/CloudFront Origin Access Identity "

/-- Substring search on character lists: does `pat` occur contiguously in
the list? -/
def charsInfix (pat : List Char) : List Char → Bool
  | [] => pat.isPrefixOf []
  | c :: rest => pat.isPrefixOf (c :: rest) || charsInfix pat rest

/-- Rust `str::contains(pat)`: substring containment, on the underlying
character lists. -/
def strContains (s pat : String) : Bool :=
  charsInfix pat.data s.data

/-- Rust `str::starts_with(pat)`, on the underlying character lists. -/
def strStartsWith (s pat : String) : Bool :=
  pat.data.isPrefixOf s.data

/-- Models `.iter().map(|s| String::from(s.as_str().unwrap())).collect()`
on a JSON array: every element must be a string, otherwise the `unwrap`
panics (`none`). -/
def stringsOfValues : List Value → Option (List String)
  | [] => some []
  | .str s :: rest => (stringsOfValues rest).map (fun tail => s :: tail)
  | _ :: _ => none

/-- `impl From<&Value> for Action` (actions.rs): a single string, an array of
strings (panicking on non-string elements), and the empty list for every
other shape. -/
def Action.fromValue : Value → Option (List String)
  | .str action => some [action]
  | .arr actions => stringsOfValues actions
  | _ => some []

/-- `Action::wildcards` (actions.rs): wildcards may appear anywhere in an
action name, so this is a substring match. -/
def Action.wildcards (actions : List String) : Nat :=
  (actions.filter (fun name => strContains name WILDCARD)).length

/-- `impl From<&Value> for Principal` (principals.rs): a bare string, or an
object whose `AWS` key holds a string or an array of strings (panicking on
non-string elements); every other shape yields the empty list. -/
def Principal.fromValue : Value → Option (List String)
  | .str arn => some [arn]
  | .obj o =>
    match o.lookup "AWS" with
    | some (.str arn) => some [arn]
    | some (.arr vec) => stringsOfValues vec
    | some _ => some []
    | none => some []
  | _ => some []

/-- `Principal::wildcards` (principals.rs): exact equality with `*`. -/
def Principal.wildcards (arns : List String) : Nat :=
  (arns.filter (fun arn => arn == WILDCARD)).length

/-- `Principal::cloudfront_distributions` (principals.rs). -/
def Principal.cloudfront_distributions (arns : List String) : Nat :=
  (arns.filter (fun arn => strStartsWith arn CLOUDFRONT_OAI)).length

/-- `BucketPolicy` (policy.rs): the action and principal strings accumulated
across all Allow statements of the document. -/
structure BucketPolicy where
  actions : List String
  principals : List String

/-- `BucketPolicy::wildcards` (policy.rs): action wildcards plus principal
wildcards.  The Rust code returns a `Wildcards(usize)` wrapper whose
`count()` unwraps it; the model returns the count directly. -/
def BucketPolicy.wildcards (p : BucketPolicy) : Nat :=
  Action.wildcards p.actions + Principal.wildcards p.principals

/-- `BucketPolicy::cloudfront_distributions` (policy.rs). -/
def BucketPolicy.cloudfront_distributions (p : BucketPolicy) : Nat :=
  Principal.cloudfront_distributions p.principals

/-- The statement loop of `BucketPolicy::try_from` (policy.rs): skip `Deny`
statements, extract and append actions and principals otherwise.  `none`
models the `.expect` panic on a missing `Effect` and the extraction panics. -/
def processStatements :
    List Value → List String → List String → Option (List String × List String)
  | [], actions, principals => some (actions, principals)
  | stmt :: rest, actions, principals =>
    match (stmt.index "Effect").as_str with
    | none => none
    | some effect =>
      if effect = "Deny" then
        processStatements rest actions principals
      else
        match Action.fromValue (stmt.index "Action"),
              Principal.fromValue (stmt.index "Principal") with
        | some acts, some prins =>
          processStatements rest (actions ++ acts) (principals ++ prins)
        | _, _ => none

/-- `BucketPolicy::try_from` (policy.rs), starting from the parsed JSON
document (the claims quantify over policy documents; serde's string parsing
is outside their scope).  `none` models the `.expect` panic on a missing
`Statement` array. -/
def BucketPolicy.try_from (jv : Value) : Option BucketPolicy :=
  match (jv.index "Statement").as_array with
  | none => none
  | some statements =>
    match processStatements statements [] [] with
    | none => none
    | some (actions, principals) => some ⟨actions, principals⟩

/-- Written from the spec's words, for comparison with the code: the wildcard
contribution of one statement — skip on `Effect: Deny`, otherwise the number
of extracted action strings containing the substring `*` plus the number of
extracted principal strings exactly equal to `*`. -/
def specStmtWildcards (stmt : Value) : Option Nat :=
  match (stmt.index "Effect").as_str with
  | none => none
  | some effect =>
    if effect = "Deny" then some 0
    else
      match Action.fromValue (stmt.index "Action"),
            Principal.fromValue (stmt.index "Principal") with
      | some acts, some prins =>
        some (acts.countP (fun name => strContains name WILDCARD) +
              prins.countP (fun arn => arn == WILDCARD))
      | _, _ => none

/-- Written from the spec's words: the CloudFront-origin contribution of one
statement — skip on `Effect: Deny`, otherwise the number of extracted
principal strings starting with the OAI ARN prefix.  (The statement's action
extraction is still consulted: if it panics, the document has no analyzer
result at all.) -/
def specStmtCloudfront (stmt : Value) : Option Nat :=
  match (stmt.index "Effect").as_str with
  | none => none
  | some effect =>
    if effect = "Deny" then some 0
    else
      match Action.fromValue (stmt.index "Action"),
            Principal.fromValue (stmt.index "Principal") with
      | some _, some prins =>
        some (prins.countP (fun arn => strStartsWith arn CLOUDFRONT_OAI))
      | _, _ => none

/-- Sums an optional per-statement count across a statement list, failing
when any statement fails. -/
def sumOption (f : Value → Option Nat) : List Value → Option Nat
  | [] => some 0
  | stmt :: rest =>
    match f stmt, sumOption f rest with
    | some a, some b => some (a + b)
    | _, _ => none

/-- Written from the spec's words: the document-wide wildcard count, summed
statement by statement. -/
def specDocWildcards (jv : Value) : Option Nat :=
  match (jv.index "Statement").as_array with
  | none => none
  | some statements => sumOption specStmtWildcards statements

/-- Written from the spec's words: the document-wide CloudFront-origin count,
summed statement by statement. -/
def specDocCloudfront (jv : Value) : Option Nat :=
  match (jv.index "Statement").as_array with
  | none => none
  | some statements => sumOption specStmtCloudfront statements

/-- Wraps a statement list as a policy document. -/
def mkDoc (statements : List Value) : Value :=
  Value.obj [("Statement", Value.arr statements)]

/-- The single-Allow-statement document from the repository's wildcard test:
three wildcard actions and two principals, of which only the literal `*`
is a principal wildcard. -/
def exampleWildcardDoc : Value := mkDoc [Value.obj [
  ("Effect", Value.str "Allow"),
  ("Action", Value.arr [Value.str "s3:*", Value.str "s3:*Object*", Value.str "*"]),
  ("Principal", Value.obj [("AWS",
    Value.arr [Value.str "arn:aws:iam::*:user/*", Value.str "*"])])]]

/-- A single Allow statement whose principal is one CloudFront Origin Access
Identity ARN. -/
def exampleOaiDoc : Value := mkDoc [Value.obj [
  ("Effect", Value.str "Allow"),
  ("Action", Value.str "s3:GetObject"),
  ("Principal", Value.obj [("AWS",
    Value.str "arn:aws:iam::cloudfront:user/CloudFront Origin Access Identity E1234")])]]

lemma action_wildcards_of_append (xs ys : List String) :
    Action.wildcards (xs ++ ys) = Action.wildcards xs + Action.wildcards ys := by
  simp [Action.wildcards, List.filter_append]

lemma principal_wildcards_of_append (xs ys : List String) :
    Principal.wildcards (xs ++ ys) =
      Principal.wildcards xs + Principal.wildcards ys := by
  simp [Principal.wildcards, List.filter_append]

lemma Principal.cloudfront_append (xs ys : List String) :
    Principal.cloudfront_distributions (xs ++ ys) =
      Principal.cloudfront_distributions xs + Principal.cloudfront_distributions ys := by
  simp [Principal.cloudfront_distributions, List.filter_append]

/-- The statement loop agrees with the spec's per-statement wildcard sum:
whenever the loop finishes, each statement's spec count is defined and the
final wildcard total exceeds the accumulator's by their sum. -/
lemma processStatements_spec_wildcards :
    ∀ (stmts : List Value) (acts prins a p : List String),
      processStatements stmts acts prins = some (a, p) →
      ∃ k, sumOption specStmtWildcards stmts = some k ∧
        Action.wildcards a + Principal.wildcards p =
          (Action.wildcards acts + Principal.wildcards prins) + k := by
  intro stmts
  induction stmts with
  | nil =>
    intro acts prins a p h
    simp only [processStatements, Option.some.injEq, Prod.mk.injEq] at h
    exact ⟨0, rfl, by rw [h.1, h.2, Nat.add_zero]⟩
  | cons stmt rest ih =>
    intro acts prins a p h
    cases heff : (stmt.index "Effect").as_str with
    | none => simp [processStatements, heff] at h
    | some effect =>
      by_cases hden : effect = "Deny"
      · subst hden
        simp only [processStatements, heff, if_pos rfl] at h
        obtain ⟨k, hk, hsum⟩ := ih acts prins a p h
        refine ⟨k, ?_, hsum⟩
        simp [sumOption, specStmtWildcards, heff, hk]
      · cases hact : Action.fromValue (stmt.index "Action") with
        | none => simp [processStatements, heff, hden, hact] at h
        | some acts2 =>
          cases hpr : Principal.fromValue (stmt.index "Principal") with
          | none => simp [processStatements, heff, hden, hact, hpr] at h
          | some prins2 =>
            simp only [processStatements, heff, if_neg hden, hact, hpr] at h
            obtain ⟨k, hk, hsum⟩ := ih _ _ a p h
            refine ⟨Action.wildcards acts2 + Principal.wildcards prins2 + k, ?_, ?_⟩
            · simp [sumOption, specStmtWildcards, heff, hden, hact, hpr, hk,
                List.countP_eq_length_filter, Action.wildcards, Principal.wildcards]
            · rw [hsum, action_wildcards_of_append, principal_wildcards_of_append]
              omega

/-- The statement loop agrees with the spec's per-statement CloudFront-origin
sum in the same way. -/
lemma processStatements_spec_cloudfront :
    ∀ (stmts : List Value) (acts prins a p : List String),
      processStatements stmts acts prins = some (a, p) →
      ∃ k, sumOption specStmtCloudfront stmts = some k ∧
        Principal.cloudfront_distributions p =
          Principal.cloudfront_distributions prins + k := by
  intro stmts
  induction stmts with
  | nil =>
    intro acts prins a p h
    simp only [processStatements, Option.some.injEq, Prod.mk.injEq] at h
    exact ⟨0, rfl, by rw [h.2, Nat.add_zero]⟩
  | cons stmt rest ih =>
    intro acts prins a p h
    cases heff : (stmt.index "Effect").as_str with
    | none => simp [processStatements, heff] at h
    | some effect =>
      by_cases hden : effect = "Deny"
      · subst hden
        simp only [processStatements, heff, if_pos rfl] at h
        obtain ⟨k, hk, hsum⟩ := ih acts prins a p h
        refine ⟨k, ?_, hsum⟩
        simp [sumOption, specStmtCloudfront, heff, hk]
      · cases hact : Action.fromValue (stmt.index "Action") with
        | none => simp [processStatements, heff, hden, hact] at h
        | some acts2 =>
          cases hpr : Principal.fromValue (stmt.index "Principal") with
          | none => simp [processStatements, heff, hden, hact, hpr] at h
          | some prins2 =>
            simp only [processStatements, heff, if_neg hden, hact, hpr] at h
            obtain ⟨k, hk, hsum⟩ := ih _ _ a p h
            refine ⟨Principal.cloudfront_distributions prins2 + k, ?_, ?_⟩
            · simp [sumOption, specStmtCloudfront, heff, hden, hact, hpr, hk,
                List.countP_eq_length_filter, Principal.cloudfront_distributions]
            · rw [hsum, Principal.cloudfront_append]
              omega

lemma mkDoc_statements (statements : List Value) :
    ((mkDoc statements).index "Statement").as_array = some statements := rfl

/-- A statement whose `Effect` is `Deny` is skipped by the statement loop
before any of its content is touched. -/
lemma processStatements_deny (stmt : Value)
    (hd : (stmt.index "Effect").as_str = some "Deny") :
    ∀ (pre post : List Value) (acts prins : List String),
      processStatements (pre ++ stmt :: post) acts prins =
        processStatements (pre ++ post) acts prins := by
  intro pre
  induction pre with
  | nil =>
    intro post acts prins
    simp [processStatements, hd]
  | cons x rest ih =>
    intro post acts prins
    cases heff : (x.index "Effect").as_str with
    | none => simp [processStatements, heff]
    | some effect =>
      by_cases hden : effect = "Deny"
      · subst hden
        simp only [List.cons_append, processStatements, heff, if_pos rfl]
        exact ih post acts prins
      · cases hact : Action.fromValue (x.index "Action") with
        | none => simp [processStatements, heff, hden, hact]
        | some acts2 =>
          cases hpr : Principal.fromValue (x.index "Principal") with
          | none => simp [processStatements, heff, hden, hact, hpr]
          | some prins2 =>
            simp only [List.cons_append, processStatements, heff, if_neg hden,
              hact, hpr]
            exact ih post _ _

/-- C1.  For every policy document the analyzer converts successfully,
`wildcards()` equals the spec's document-wide sum: the number of extracted
action strings containing the substring `*` anywhere plus the number of
extracted principal strings exactly equal to `*`, summed statement by
statement across the whole document; and a principal string other than the
literal `*` (such as `arn:aws:iam::*:user/*`) contributes 0 to the principal
part even when it contains `*` somewhere. -/
theorem wildcards_eq_spec_document_sum :
    (∀ (jv : Value) (bp : BucketPolicy), BucketPolicy.try_from jv = some bp →
      specDocWildcards jv = some bp.wildcards)
    ∧ (∀ s : String, s ≠ WILDCARD → Principal.wildcards [s] = 0) := by
  constructor
  · intro jv bp h
    cases harr : ((jv.index "Statement").as_array) with
    | none => simp [BucketPolicy.try_from, harr] at h
    | some statements =>
      cases hps : processStatements statements [] [] with
      | none => simp [BucketPolicy.try_from, harr, hps] at h
      | some pair =>
        obtain ⟨actions, principals⟩ := pair
        simp only [BucketPolicy.try_from, harr, hps, Option.some.injEq] at h
        obtain ⟨k, hk, hsum⟩ :=
          processStatements_spec_wildcards statements [] [] actions principals hps
        simp only [show Action.wildcards [] = 0 from rfl,
          show Principal.wildcards [] = 0 from rfl] at hsum
        subst h
        simp only [specDocWildcards, harr, hk, BucketPolicy.wildcards,
          Option.some.injEq]
        omega
  · intro s hs
    have hb : (s == WILDCARD) = false := beq_eq_false_iff_ne.mpr hs
    simp [Principal.wildcards, List.filter, hb]

/-- Witness for C1 on the repository's own wildcard-test document: three
wildcard actions plus one exact-`*` principal give 4, and the malformed ARN
`arn:aws:iam::*:user/*` contributes 0. -/
theorem wildcards_eq_spec_document_sum_witness :
    specDocWildcards exampleWildcardDoc =
      some (BucketPolicy.wildcards
        ⟨["s3:*", "s3:*Object*", "*"], ["arn:aws:iam::*:user/*", "*"]⟩)
    ∧ Principal.wildcards ["arn:aws:iam::*:user/*"] = 0 :=
  ⟨wildcards_eq_spec_document_sum.1 exampleWildcardDoc _ rfl,
   wildcards_eq_spec_document_sum.2 "arn:aws:iam::*:user/*" (by decide)⟩

/-- C2.  A statement whose `Effect` is `Deny` contributes 0 to both counts:
deleting it from the document leaves the analyzer's entire result — and
hence both `wildcards()` and `cloudfront_distributions()` — unchanged,
whatever Action or Principal content it carries. -/
theorem deny_statement_contributes_nothing :
    ∀ (pre post : List Value) (stmt : Value),
      (stmt.index "Effect").as_str = some "Deny" →
      BucketPolicy.try_from (mkDoc (pre ++ stmt :: post)) =
        BucketPolicy.try_from (mkDoc (pre ++ post)) := by
  intro pre post stmt hd
  simp only [BucketPolicy.try_from, mkDoc_statements]
  rw [processStatements_deny stmt hd pre post [] []]

/-- Witness for C2: the repository's Deny test statement, full of wildcard
actions and principals, leaves an otherwise empty document with zero
wildcards. -/
theorem deny_statement_contributes_nothing_witness :
    BucketPolicy.try_from (mkDoc [Value.obj [
      ("Effect", Value.str "Deny"),
      ("Action", Value.arr [Value.str "s3:*", Value.str "s3:*Object*", Value.str "*"]),
      ("Principal", Value.obj [("AWS",
        Value.arr [Value.str "arn:aws:iam::*:user/*", Value.str "*"])])]]) =
      BucketPolicy.try_from (mkDoc [])
    ∧ (BucketPolicy.try_from (mkDoc [])).map BucketPolicy.wildcards = some 0 :=
  ⟨deny_statement_contributes_nothing [] []
    (Value.obj [
      ("Effect", Value.str "Deny"),
      ("Action", Value.arr [Value.str "s3:*", Value.str "s3:*Object*", Value.str "*"]),
      ("Principal", Value.obj [("AWS",
        Value.arr [Value.str "arn:aws:iam::*:user/*", Value.str "*"])])]) rfl,
   rfl⟩

/-- C3.  `cloudfront_distributions()` equals the spec's document-wide sum of
extracted principal strings starting with the CloudFront OAI ARN prefix; a
principal starting with that prefix contributes 0 to the wildcard count; and
on a single Allow statement whose principal is one OAI ARN the analyzer
reports one distribution and zero wildcards. -/
theorem cloudfront_eq_spec_document_sum :
    (∀ (jv : Value) (bp : BucketPolicy), BucketPolicy.try_from jv = some bp →
      specDocCloudfront jv = some bp.cloudfront_distributions)
    ∧ (∀ s : String, strStartsWith s CLOUDFRONT_OAI = true →
        Principal.wildcards [s] = 0)
    ∧ (BucketPolicy.try_from exampleOaiDoc).map BucketPolicy.cloudfront_distributions
        = some 1
    ∧ (BucketPolicy.try_from exampleOaiDoc).map BucketPolicy.wildcards = some 0 := by
  refine ⟨?_, ?_, rfl, rfl⟩
  · intro jv bp h
    cases harr : ((jv.index "Statement").as_array) with
    | none => simp [BucketPolicy.try_from, harr] at h
    | some statements =>
      cases hps : processStatements statements [] [] with
      | none => simp [BucketPolicy.try_from, harr, hps] at h
      | some pair =>
        obtain ⟨actions, principals⟩ := pair
        simp only [BucketPolicy.try_from, harr, hps, Option.some.injEq] at h
        obtain ⟨k, hk, hsum⟩ :=
          processStatements_spec_cloudfront statements [] [] actions principals hps
        simp only [show Principal.cloudfront_distributions [] = 0 from rfl] at hsum
        subst h
        simp only [specDocCloudfront, harr, hk,
          BucketPolicy.cloudfront_distributions, Option.some.injEq]
        omega
  · intro s hs
    rcases eq_or_ne s WILDCARD with rfl | hne
    · exact absurd hs (by decide)
    · have hb : (s == WILDCARD) = false := beq_eq_false_iff_ne.mpr hne
      simp [Principal.wildcards, List.filter, hb]

/-- Witness for C3, instantiating the document sum at the OAI scenario
document. -/
theorem cloudfront_eq_spec_document_sum_witness :
    specDocCloudfront exampleOaiDoc = some (BucketPolicy.cloudfront_distributions
      ⟨["s3:GetObject"],
       ["arn:aws:iam::cloudfront:user/CloudFront Origin Access Identity E1234"]⟩)
    ∧ Principal.wildcards
        ["arn:aws:iam::cloudfront:user/CloudFront Origin Access Identity E1234"] = 0 :=
  ⟨cloudfront_eq_spec_document_sum.1 exampleOaiDoc _ rfl,
   cloudfront_eq_spec_document_sum.2.1 _ (by decide)⟩

/-- The `Audit` enum (audits.rs). -/
inductive Audit where
  | Acl
  | All
  | Cloudfront
  | Logging
  | MfaDelete
  | Policy
  | PublicAccessBlocks
  | ServerSideEncryption
  | Versioning
  | Website
deriving DecidableEq, Fintype

/-- `Audits::default` (audits.rs): all nine concrete audits are enabled by
default; the `All` sentinel is not a member. -/
def Audits.default : Finset Audit :=
  {Audit.Acl, Audit.Cloudfront, Audit.Logging, Audit.MfaDelete, Audit.Policy,
   Audit.PublicAccessBlocks, Audit.ServerSideEncryption, Audit.Versioning,
   Audit.Website}

/-- `Audits::new` (audits.rs). -/
def Audits.new : Finset Audit := Audits.default

/-- `Audits::disable` (audits.rs): with `All` in the list the set is emptied
outright; otherwise each listed audit is removed. -/
def Audits.disable (s : Finset Audit) (audits : Option (List Audit)) :
    Finset Audit :=
  match audits with
  | none => s
  | some l =>
    if Audit.All ∈ l then ∅
    else l.foldl (fun acc a => acc.erase a) s

/-- `Audits::enable` (audits.rs): with `All` in the list the full default set
is restored; otherwise each listed audit is inserted. -/
def Audits.enable (s : Finset Audit) (audits : Option (List Audit)) :
    Finset Audit :=
  match audits with
  | none => s
  | some l =>
    if Audit.All ∈ l then Audits.new
    else l.foldl (fun acc a => insert a acc) s

/-- `Audits::enabled` (audits.rs) returns the members of the backing HashSet
in unspecified iteration order, so it is modelled by the member set itself. -/
def Audits.enabled (s : Finset Audit) : Finset Audit := s

/-- One enable or disable call, for quantifying over call sequences. -/
inductive AuditOp where
  | EnableOp (audits : Option (List Audit))
  | DisableOp (audits : Option (List Audit))

/-- Applies one enable/disable call to an audit set. -/
def applyAuditOp (s : Finset Audit) : AuditOp → Finset Audit
  | .EnableOp l => Audits.enable s l
  | .DisableOp l => Audits.disable s l

/-- A sequence of enable/disable calls starting from the default set. -/
def runAuditOps (ops : List AuditOp) : Finset Audit :=
  ops.foldl applyAuditOp Audits.default

lemma all_not_mem_foldl_erase (l : List Audit) :
    ∀ s : Finset Audit, Audit.All ∉ s →
      Audit.All ∉ l.foldl (fun acc a => acc.erase a) s := by
  induction l with
  | nil => intro s hs; exact hs
  | cons a rest ih =>
    intro s hs
    exact ih _ (fun hmem => hs (Finset.mem_of_mem_erase hmem))

lemma all_not_mem_foldl_insert (l : List Audit) :
    ∀ s : Finset Audit, Audit.All ∉ s → Audit.All ∉ l →
      Audit.All ∉ l.foldl (fun acc a => insert a acc) s := by
  induction l with
  | nil => intro s hs _; exact hs
  | cons a rest ih =>
    intro s hs hl
    refine ih _ ?_ (fun h => hl (List.mem_cons_of_mem a h))
    intro hmem
    rcases Finset.mem_insert.mp hmem with h | h
    · exact hl (h ▸ List.mem_cons_self a rest)
    · exact hs h

lemma all_not_mem_default : Audit.All ∉ Audits.default := by decide

lemma all_not_mem_applyAuditOp (s : Finset Audit) (op : AuditOp)
    (hs : Audit.All ∉ s) : Audit.All ∉ applyAuditOp s op := by
  cases op with
  | EnableOp l =>
    cases l with
    | none => exact hs
    | some l =>
      by_cases hall : Audit.All ∈ l
      · simp only [applyAuditOp, Audits.enable, if_pos hall]
        exact all_not_mem_default
      · simp only [applyAuditOp, Audits.enable, if_neg hall]
        exact all_not_mem_foldl_insert l s hs hall
  | DisableOp l =>
    cases l with
    | none => exact hs
    | some l =>
      by_cases hall : Audit.All ∈ l
      · simp [applyAuditOp, Audits.disable, if_pos hall]
      · simp only [applyAuditOp, Audits.disable, if_neg hall]
        exact all_not_mem_foldl_erase l s hs

/-- C4.  A disable call whose list contains `All` empties the set whatever
the other entries and the prior state; an enable call whose list contains
`All` restores the full default set likewise. -/
theorem all_token_absorbs :
    ∀ (s : Finset Audit) (l : List Audit), Audit.All ∈ l →
      Audits.disable s (some l) = ∅ ∧ Audits.enable s (some l) = Audits.default := by
  intro s l hall
  constructor
  · simp [Audits.disable, if_pos hall]
  · simp [Audits.enable, Audits.new, if_pos hall]

/-- Witness for C4 at a concrete state and list: `All` buried among other
entries still absorbs, from a previously emptied state too. -/
theorem all_token_absorbs_witness :
    Audits.disable Audits.default (some [Audit.Acl, Audit.All, Audit.Website]) = ∅
    ∧ Audits.enable ∅ (some [Audit.Acl, Audit.All, Audit.Website]) = Audits.default :=
  ⟨(all_token_absorbs Audits.default [Audit.Acl, Audit.All, Audit.Website]
      (by decide)).1,
   (all_token_absorbs ∅ [Audit.Acl, Audit.All, Audit.Website] (by decide)).2⟩

/-- C5.  The default set is exactly the nine concrete categories — every
category except `All` — and no sequence of enable/disable calls starting
from the default ever makes `All` a member. -/
theorem all_never_a_member :
    (∀ a : Audit, a ∈ Audits.default ↔ a ≠ Audit.All)
    ∧ ∀ ops : List AuditOp, Audit.All ∉ runAuditOps ops := by
  constructor
  · decide
  · intro ops
    suffices h : ∀ s : Finset Audit, Audit.All ∉ s →
        Audit.All ∉ ops.foldl applyAuditOp s from
      h Audits.default all_not_mem_default
    induction ops with
    | nil => intro s hs; exact hs
    | cons op rest ih =>
      intro s hs
      exact ih _ (all_not_mem_applyAuditOp s op hs)

/-- Witness for C5: the invariant at a concrete call sequence. -/
theorem all_never_a_member_witness :
    Audit.All ∉ runAuditOps
      [AuditOp.DisableOp (some [Audit.Policy]),
       AuditOp.EnableOp (some [Audit.All]),
       AuditOp.EnableOp none] :=
  all_never_a_member.2 _

/-- C6.  Disabling `None` then enabling `None` on a fresh audit set is a
no-op: the member set `enabled()` reports is unchanged. -/
theorem disable_none_enable_none_roundtrip :
    Audits.enabled (Audits.enable (Audits.disable Audits.new none) none) =
      Audits.enabled Audits.new := rfl

/-- Are all elements of a JSON array strings? -/
def allStrings (xs : List Value) : Bool :=
  xs.all (fun x => match x with | .str _ => true | _ => false)

lemma stringsOfValues_isSome :
    ∀ xs : List Value, (stringsOfValues xs).isSome = allStrings xs := by
  intro xs
  induction xs with
  | nil => rfl
  | cons x rest ih =>
    cases x with
    | str s =>
      simp only [stringsOfValues, allStrings, List.all_cons, Bool.true_and]
      simpa [allStrings] using ih
    | null => rfl
    | bool b => rfl
    | num n => rfl
    | arr xs => rfl
    | obj o => rfl

/-- Shapes of the `Action` value other than the recognised string and
array. -/
def actionOtherShape : Value → Bool
  | .str _ => false
  | .arr _ => false
  | _ => true

/-- Shapes of the `Principal` value other than the recognised bare string
and object-with-`AWS`-key holding a string or an array. -/
def principalOtherShape : Value → Bool
  | .str _ => false
  | .obj o =>
    (match o.lookup "AWS" with
     | some (.str _) => false
     | some (.arr _) => false
     | _ => true)
  | _ => true

/-- C9 counterexample.  The claim says extraction never panics, even on
arrays whose elements are not strings; but on such arrays the code calls
`as_str().unwrap()` and panics (modelled by `none`): an `Action` array with
a boolean element and a `Principal` whose `AWS` array holds a number both
fail to produce any list. -/
theorem extraction_panics_on_non_string_array :
    Action.fromValue (Value.arr [Value.bool true]) = none
    ∧ Principal.fromValue (Value.obj [("AWS", Value.arr [Value.num 1])]) = none :=
  ⟨rfl, rfl⟩

/-- C9 amended.  Extraction of Action and Principal values returns a string
list for every JSON value except exactly the recognised arrays containing a
non-string element, where the `unwrap` panics; and every shape other than
the recognised string/array (for Action) or string/object-with-`AWS`-key
(for Principal) yields the empty list. -/
theorem extraction_total_except_bad_arrays :
    (∀ v : Value, (Action.fromValue v).isSome = false ↔
      ∃ xs, v = Value.arr xs ∧ allStrings xs = false)
    ∧ (∀ v : Value, (Principal.fromValue v).isSome = false ↔
      ∃ o xs, v = Value.obj o ∧ o.lookup "AWS" = some (Value.arr xs)
        ∧ allStrings xs = false)
    ∧ (∀ v : Value, actionOtherShape v = true → Action.fromValue v = some [])
    ∧ (∀ v : Value, principalOtherShape v = true → Principal.fromValue v = some []) := by
  refine ⟨?_, ?_, ?_, ?_⟩
  · intro v
    cases v <;> simp [Action.fromValue, stringsOfValues_isSome]
  · intro v
    cases v with
    | obj o =>
      cases hl : o.lookup "AWS" with
      | none => simp [Principal.fromValue, hl]
      | some w =>
        cases w <;> simp [Principal.fromValue, hl, stringsOfValues_isSome]
    | _ => simp [Principal.fromValue]
  · intro v hv
    cases v <;> simp_all [actionOtherShape, Action.fromValue]
  · intro v hv
    cases v with
    | obj o =>
      simp only [principalOtherShape] at hv
      cases hl : o.lookup "AWS" with
      | none => simp [Principal.fromValue, hl]
      | some w => cases w <;> simp_all [Principal.fromValue, hl]
    | _ => simp_all [principalOtherShape, Principal.fromValue]

/-- Witness for the amended C9: a numeric value is an unrecognised shape for
both extractions and yields the empty list. -/
theorem extraction_total_except_bad_arrays_witness :
    Action.fromValue (Value.num 5) = some []
    ∧ Principal.fromValue (Value.num 5) = some [] :=
  ⟨extraction_total_except_bad_arrays.2.2.1 (Value.num 5) rfl,
   extraction_total_except_bad_arrays.2.2.2 (Value.num 5) rfl⟩

/-- `BucketAcl` (acl.rs). -/
inductive BucketAcl where
  | Private
  | Public

/-- `BucketEncryption` (encryption.rs). -/
inductive BucketEncryption where
  | Default
  | Kms
  | None
  | Unknown (algorithm : String)

/-- `BucketLogging` (logging.rs). -/
inductive BucketLogging where
  | Enabled (target_bucket : String)
  | Disabled

/-- `MfaStatus` (versioning.rs). -/
inductive MfaStatus where
  | Enabled
  | Disabled
deriving DecidableEq

/-- `VersioningStatus` (versioning.rs). -/
inductive VersioningStatus where
  | Enabled
  | Suspended
deriving DecidableEq

/-- `BucketVersioning` (versioning.rs): one versioning fetch carries both
the versioning status and the MFA-delete status. -/
structure BucketVersioning where
  mfa_delete : MfaStatus
  versioning : VersioningStatus

/-- `BucketWebsite` (website.rs). -/
inductive BucketWebsite where
  | Enabled
  | Disabled

/-- `PublicAccessBlockType` (public_access_block.rs). -/
inductive PublicAccessBlockType where
  | BlockPublicAcls (b : Bool)
  | BlockPublicPolicy (b : Bool)
  | IgnorePublicAcls (b : Bool)
  | RestrictPublicBuckets (b : Bool)

/-- The four optional booleans of the provider's public-access-block
configuration. -/
structure PabConfig where
  block_public_acls : Option Bool
  block_public_policy : Option Bool
  ignore_public_acls : Option Bool
  restrict_public_buckets : Option Bool

/-- `PublicAccessBlock::default` (public_access_block.rs): all four blocks
false. -/
def publicAccessBlockDefault : List PublicAccessBlockType :=
  [.BlockPublicAcls false, .BlockPublicPolicy false,
   .IgnorePublicAcls false, .RestrictPublicBuckets false]

/-- `impl From<GetPublicAccessBlockOutput> for PublicAccessBlock`
(public_access_block.rs): each missing boolean defaults to false. -/
def publicAccessBlockFrom (c : PabConfig) : List PublicAccessBlockType :=
  [.BlockPublicAcls (c.block_public_acls.getD false),
   .BlockPublicPolicy (c.block_public_policy.getD false),
   .IgnorePublicAcls (c.ignore_public_acls.getD false),
   .RestrictPublicBuckets (c.restrict_public_buckets.getD false)]

/-- `Client::get_public_access_block` (client.rs): a failed fetch yields the
default all-false configuration, a successful one is converted. -/
def get_public_access_block (r : Option PabConfig) : List PublicAccessBlockType :=
  match r with
  | none => publicAccessBlockDefault
  | some c => publicAccessBlockFrom c

/-- `Report` (report.rs): a per-bucket aggregate of optional finding
slots. -/
structure Report where
  name : String
  acl : Option BucketAcl
  encryption : Option BucketEncryption
  logging : Option BucketLogging
  policy : Option (Option BucketPolicy)
  public_access_block : Option (List PublicAccessBlockType)
  versioning : Option BucketVersioning
  website : Option BucketWebsite

/-- The external fetch calls `Client::bucket_report` can issue, for counting
them. -/
inductive ApiCall where
  | GetBucketAcl
  | GetBucketEncryption
  | GetBucketLogging
  | GetBucketPolicy
  | GetPublicAccessBlock
  | GetBucketVersioning
  | GetBucketWebsite
deriving DecidableEq

/-- The already-resolved fetch results for one bucket: what each
`get_bucket_*` call of client.rs would classify the provider's answer into.
Errors abort the whole report, so successful outcomes are modelled. -/
structure Responses where
  acl : BucketAcl
  encryption : BucketEncryption
  logging : BucketLogging
  policy : Option BucketPolicy
  public_access_block : Option PabConfig
  versioning : BucketVersioning
  website : BucketWebsite

/-- The guarded-fetch pattern repeated throughout `Client::bucket_report`:
fetch and populate the slot when the audit is enabled, otherwise leave it
`None` and perform no call. -/
def slotIf {α : Type} (b : Bool) (v : α) (c : ApiCall) : Option α × List ApiCall :=
  (if b then some v else none, if b then [c] else [])

/-- `Client::bucket_report` (client.rs): one guarded fetch per enabled audit,
with `Versioning` and `MfaDelete` sharing the single versioning fetch.  The
second component logs the fetches performed, in program order. -/
def bucketReport (bucket : String) (audits : List Audit) (resp : Responses) :
    Report × List ApiCall :=
  let acl := slotIf (audits.contains Audit.Acl) resp.acl ApiCall.GetBucketAcl
  let encryption := slotIf (audits.contains Audit.ServerSideEncryption)
    resp.encryption ApiCall.GetBucketEncryption
  let logging := slotIf (audits.contains Audit.Logging)
    resp.logging ApiCall.GetBucketLogging
  let policy := slotIf (audits.contains Audit.Policy)
    resp.policy ApiCall.GetBucketPolicy
  let public_access_block := slotIf (audits.contains Audit.PublicAccessBlocks)
    (get_public_access_block resp.public_access_block) ApiCall.GetPublicAccessBlock
  let audit_versioning :=
    [Audit.MfaDelete, Audit.Versioning].any (fun x => audits.contains x)
  let versioning := slotIf audit_versioning
    resp.versioning ApiCall.GetBucketVersioning
  let website := slotIf (audits.contains Audit.Website)
    resp.website ApiCall.GetBucketWebsite
  (⟨bucket, acl.1, encryption.1, logging.1, policy.1, public_access_block.1,
    versioning.1, website.1⟩,
   acl.2 ++ encryption.2 ++ logging.2 ++ policy.2 ++ public_access_block.2 ++
    versioning.2 ++ website.2)

lemma isSome_slotIf {α : Type} (b : Bool) (v : α) (c : ApiCall) :
    ((slotIf b v c).1).isSome = b := by
  cases b <;> simp [slotIf]

lemma count_slotIf_self {α : Type} (b : Bool) (v : α) (c : ApiCall) :
    ((slotIf b v c).2).count c = if b then 1 else 0 := by
  cases b <;> simp [slotIf]

lemma count_slotIf_ne {α : Type} (b : Bool) (v : α) (c c' : ApiCall)
    (h : c' ≠ c) : ((slotIf b v c).2).count c' = 0 := by
  cases b <;> simp [slotIf, List.count_cons, h, List.count_nil]

/-- C7.  Every finding slot of the orchestrator's report is populated iff
the corresponding audit is in the enabled set; the one versioning slot —
which carries both the versioning status and the MFA-delete status — is
populated with the single fetched versioning result iff `Versioning` or
`MfaDelete` (or both) is enabled, and exactly one versioning fetch is
issued in that case, none otherwise. -/
theorem report_slots_iff_enabled :
    ∀ (bucket : String) (audits : List Audit) (resp : Responses),
      ((bucketReport bucket audits resp).1.acl.isSome
          = audits.contains Audit.Acl)
      ∧ ((bucketReport bucket audits resp).1.encryption.isSome
          = audits.contains Audit.ServerSideEncryption)
      ∧ ((bucketReport bucket audits resp).1.logging.isSome
          = audits.contains Audit.Logging)
      ∧ ((bucketReport bucket audits resp).1.policy.isSome
          = audits.contains Audit.Policy)
      ∧ ((bucketReport bucket audits resp).1.public_access_block.isSome
          = audits.contains Audit.PublicAccessBlocks)
      ∧ ((bucketReport bucket audits resp).1.website.isSome
          = audits.contains Audit.Website)
      ∧ ((bucketReport bucket audits resp).1.versioning
          = if audits.contains Audit.MfaDelete || audits.contains Audit.Versioning
            then some resp.versioning else none)
      ∧ ((bucketReport bucket audits resp).2.count ApiCall.GetBucketVersioning
          = if audits.contains Audit.MfaDelete || audits.contains Audit.Versioning
            then 1 else 0) := by
  intro bucket audits resp
  have hany : [Audit.MfaDelete, Audit.Versioning].any (fun x => audits.contains x)
      = (audits.contains Audit.MfaDelete || audits.contains Audit.Versioning) := by
    simp [List.any_cons, List.any_nil]
  refine ⟨isSome_slotIf (audits.contains Audit.Acl) resp.acl ApiCall.GetBucketAcl,
    isSome_slotIf (audits.contains Audit.ServerSideEncryption) resp.encryption
      ApiCall.GetBucketEncryption,
    isSome_slotIf (audits.contains Audit.Logging) resp.logging
      ApiCall.GetBucketLogging,
    isSome_slotIf (audits.contains Audit.Policy) resp.policy
      ApiCall.GetBucketPolicy,
    isSome_slotIf (audits.contains Audit.PublicAccessBlocks)
      (get_public_access_block resp.public_access_block)
      ApiCall.GetPublicAccessBlock,
    isSome_slotIf (audits.contains Audit.Website) resp.website
      ApiCall.GetBucketWebsite, ?_, ?_⟩
  · show (slotIf ([Audit.MfaDelete, Audit.Versioning].any
        (fun x => audits.contains x)) resp.versioning ApiCall.GetBucketVersioning).1
      = _
    rw [hany]
    rfl
  · show (((slotIf (audits.contains Audit.Acl) resp.acl ApiCall.GetBucketAcl).2
        ++ (slotIf (audits.contains Audit.ServerSideEncryption) resp.encryption
            ApiCall.GetBucketEncryption).2
        ++ (slotIf (audits.contains Audit.Logging) resp.logging
            ApiCall.GetBucketLogging).2
        ++ (slotIf (audits.contains Audit.Policy) resp.policy
            ApiCall.GetBucketPolicy).2
        ++ (slotIf (audits.contains Audit.PublicAccessBlocks)
            (get_public_access_block resp.public_access_block)
            ApiCall.GetPublicAccessBlock).2
        ++ (slotIf ([Audit.MfaDelete, Audit.Versioning].any
            (fun x => audits.contains x)) resp.versioning
            ApiCall.GetBucketVersioning).2
        ++ (slotIf (audits.contains Audit.Website) resp.website
            ApiCall.GetBucketWebsite).2).count ApiCall.GetBucketVersioning) = _
    rw [List.count_append, List.count_append, List.count_append,
      List.count_append, List.count_append, List.count_append]
    rw [count_slotIf_ne _ _ ApiCall.GetBucketAcl ApiCall.GetBucketVersioning
        (by intro h; cases h),
      count_slotIf_ne _ _ ApiCall.GetBucketEncryption ApiCall.GetBucketVersioning
        (by intro h; cases h),
      count_slotIf_ne _ _ ApiCall.GetBucketLogging ApiCall.GetBucketVersioning
        (by intro h; cases h),
      count_slotIf_ne _ _ ApiCall.GetBucketPolicy ApiCall.GetBucketVersioning
        (by intro h; cases h),
      count_slotIf_ne _ _ ApiCall.GetPublicAccessBlock ApiCall.GetBucketVersioning
        (by intro h; cases h),
      count_slotIf_ne _ _ ApiCall.GetBucketWebsite ApiCall.GetBucketVersioning
        (by intro h; cases h),
      count_slotIf_self, hany]
    omega

/-- `CsvOutput` (csv_output.rs, also duplicated inside report.rs): one
optional column per finding leaf; a `none` field is skipped by serde's
`skip_serializing_if`.  Fields are listed in the struct's declaration
order, which is serde's serialization order. -/
structure CsvOutput where
  name : String
  acl : Option String
  block_public_acls : Option Bool
  block_public_policy : Option Bool
  encryption : Option (Option String)
  ignore_public_acls : Option Bool
  logging : Option Bool
  mfa_delete : Option Bool
  policy_wildcard_principals : Option Bool
  restrict_public_buckets : Option Bool
  versioning : Option Bool
  website : Option Bool

/-- One iteration of the public-access-block loop of
`impl From<&Report> for CsvOutput`. -/
def applyPabBlock (o : CsvOutput) : PublicAccessBlockType → CsvOutput
  | .BlockPublicAcls b => { o with block_public_acls := some b }
  | .BlockPublicPolicy b => { o with block_public_policy := some b }
  | .IgnorePublicAcls b => { o with ignore_public_acls := some b }
  | .RestrictPublicBuckets b => { o with restrict_public_buckets := some b }

/-- The field assignments of `impl From<&Report> for CsvOutput` other than
the public-access-block loop (the four block columns stay `None`, as the
`Default` initializer and the explicit else-branch leave them). -/
def csvBase (report : Report) : CsvOutput where
  name := report.name
  acl := report.acl.map (fun a =>
    match a with
    | .Private => "private"
    | .Public => "public")
  block_public_acls := none
  block_public_policy := none
  encryption := report.encryption.map (fun e =>
    match e with
    | .Default => some "AES256"
    | .Kms => some "aws:kms"
    | .None => some "None"
    | .Unknown s => some s)
  ignore_public_acls := none
  logging := report.logging.map (fun l =>
    match l with
    | .Enabled _ => true
    | .Disabled => false)
  mfa_delete := report.versioning.map (fun v =>
    match v.mfa_delete with
    | .Enabled => true
    | .Disabled => false)
  policy_wildcard_principals := report.policy.map (fun p =>
    match p with
    | none => false
    | some policy => decide (policy.wildcards > 0))
  restrict_public_buckets := none
  versioning := report.versioning.map (fun v =>
    match v.versioning with
    | .Enabled => true
    | .Suspended => false)
  website := report.website.map (fun w =>
    match w with
    | .Enabled => true
    | .Disabled => false)

/-- `impl From<&Report> for CsvOutput`: the field assignments, plus the loop
over the public-access-block entries when that slot is populated. -/
def CsvOutput.fromReport (report : Report) : CsvOutput :=
  match report.public_access_block with
  | some blocks => blocks.foldl applyPabBlock (csvBase report)
  | none => csvBase report

/-- Header contribution of one optional column: serde emits the column name
iff the field is not skipped. -/
def optHeader {α : Type} (nm : String) : Option α → List String
  | some _ => [nm]
  | none => []

/-- Cell contribution of one optional column. -/
def optCell {α : Type} (render : α → String) : Option α → List String
  | some v => [render v]
  | none => []

/-- Boolean cells as the csv crate serializes them. -/
def boolString (b : Bool) : String :=
  if b then "true" else "false"

/-- The header row serde derives from a `CsvOutput` record, in field
declaration order. -/
def headerFields (o : CsvOutput) : List String :=
  ["name"]
  ++ optHeader "acl" o.acl
  ++ optHeader "block_public_acls" o.block_public_acls
  ++ optHeader "block_public_policy" o.block_public_policy
  ++ optHeader "encryption" o.encryption
  ++ optHeader "ignore_public_acls" o.ignore_public_acls
  ++ optHeader "logging" o.logging
  ++ optHeader "mfa_delete" o.mfa_delete
  ++ optHeader "policy_wildcard_principals" o.policy_wildcard_principals
  ++ optHeader "restrict_public_buckets" o.restrict_public_buckets
  ++ optHeader "versioning" o.versioning
  ++ optHeader "website" o.website

/-- The data row serde derives from a `CsvOutput` record; an inner-`None`
encryption serializes as an empty cell. -/
def rowCells (o : CsvOutput) : List String :=
  [o.name]
  ++ optCell (fun s => s) o.acl
  ++ optCell boolString o.block_public_acls
  ++ optCell boolString o.block_public_policy
  ++ optCell (fun e => match e with | some s => s | none => "") o.encryption
  ++ optCell boolString o.ignore_public_acls
  ++ optCell boolString o.logging
  ++ optCell boolString o.mfa_delete
  ++ optCell boolString o.policy_wildcard_principals
  ++ optCell boolString o.restrict_public_buckets
  ++ optCell boolString o.versioning
  ++ optCell boolString o.website

/-- Modelled from the spec: the CSV writer state shared across all reports
of a run.  The `Reports` renderer that drives it is code of this repository
absent from the sources here (only its caller `Client::report` survives);
per the spec, "the header row is written once regardless of bucket count,
not once per bucket — multiple Reports must share one writer instance". -/
structure CsvWriter where
  header_written : Bool
  lines : List (List String)

/-- Modelled from the spec: serializing one record through the shared
writer emits the header row first when none has been written yet, then the
record's data row. -/
def CsvWriter.serialize (w : CsvWriter) (o : CsvOutput) : CsvWriter :=
  ⟨true,
   (if w.header_written then w.lines else w.lines ++ [headerFields o])
     ++ [rowCells o]⟩

/-- Modelled from the spec: `Reports` CSV rendering serializes every
per-bucket report through one shared writer, in input order. -/
def Reports.csv (reports : List Report) : List (List String) :=
  (reports.foldl (fun (w : CsvWriter) r => w.serialize (CsvOutput.fromReport r))
    (⟨false, []⟩ : CsvWriter)).lines

/-- The header the audit set determines: one column per populated slot
leaf. -/
def auditHeader (audits : List Audit) : List String :=
  ["name"]
  ++ (if audits.contains Audit.Acl then ["acl"] else [])
  ++ (if audits.contains Audit.PublicAccessBlocks then ["block_public_acls"] else [])
  ++ (if audits.contains Audit.PublicAccessBlocks then ["block_public_policy"] else [])
  ++ (if audits.contains Audit.ServerSideEncryption then ["encryption"] else [])
  ++ (if audits.contains Audit.PublicAccessBlocks then ["ignore_public_acls"] else [])
  ++ (if audits.contains Audit.Logging then ["logging"] else [])
  ++ (if audits.contains Audit.MfaDelete || audits.contains Audit.Versioning
      then ["mfa_delete"] else [])
  ++ (if audits.contains Audit.Policy then ["policy_wildcard_principals"] else [])
  ++ (if audits.contains Audit.PublicAccessBlocks then ["restrict_public_buckets"] else [])
  ++ (if audits.contains Audit.MfaDelete || audits.contains Audit.Versioning
      then ["versioning"] else [])
  ++ (if audits.contains Audit.Website then ["website"] else [])

lemma optHeader_ite {α : Type} (nm : String) (b : Bool) (v : α) :
    optHeader nm (if b then some v else none) = if b then [nm] else [] := by
  cases b <;> rfl

lemma option_map_ite {α β : Type} (f : α → β) (b : Bool) (v : α) :
    (if b then some v else none).map f = if b then some (f v) else none := by
  cases b <;> rfl

lemma optHeader_length {α : Type} (nm : String) (x : Option α) :
    (optHeader nm x).length = if x.isSome then 1 else 0 := by
  cases x <;> rfl

lemma optCell_length {α : Type} (render : α → String) (x : Option α) :
    (optCell render x).length = if x.isSome then 1 else 0 := by
  cases x <;> rfl

/-- Every data row has exactly as many cells as the header derived from the
same record has columns. -/
lemma rowCells_length (o : CsvOutput) :
    (rowCells o).length = (headerFields o).length := by
  simp [rowCells, headerFields, optHeader_length, optCell_length]

lemma fromReport_none_pab (r : Report) (h : r.public_access_block = none) :
    CsvOutput.fromReport r = csvBase r := by
  simp [CsvOutput.fromReport, h]

lemma fromReport_some_pab (r : Report) (blocks : List PublicAccessBlockType)
    (h : r.public_access_block = some blocks) :
    CsvOutput.fromReport r = blocks.foldl applyPabBlock (csvBase r) := by
  simp [CsvOutput.fromReport, h]

/-- The public-access-block loop touches only its own four columns. -/
lemma foldl_applyPabBlock_preserves :
    ∀ (blocks : List PublicAccessBlockType) (base : CsvOutput),
      (blocks.foldl applyPabBlock base).name = base.name
      ∧ (blocks.foldl applyPabBlock base).acl = base.acl
      ∧ (blocks.foldl applyPabBlock base).encryption = base.encryption
      ∧ (blocks.foldl applyPabBlock base).logging = base.logging
      ∧ (blocks.foldl applyPabBlock base).mfa_delete = base.mfa_delete
      ∧ (blocks.foldl applyPabBlock base).policy_wildcard_principals
          = base.policy_wildcard_principals
      ∧ (blocks.foldl applyPabBlock base).versioning = base.versioning
      ∧ (blocks.foldl applyPabBlock base).website = base.website := by
  intro blocks
  induction blocks with
  | nil => intro base; exact ⟨rfl, rfl, rfl, rfl, rfl, rfl, rfl, rfl⟩
  | cons b rest ih =>
    intro base
    have h := ih (applyPabBlock base b)
    cases b <;> simpa [applyPabBlock] using h

/-- The four booleans a fetched (or defaulted) public-access-block carries. -/
def pabBools (x : Option PabConfig) : Bool × Bool × Bool × Bool :=
  match x with
  | none => (false, false, false, false)
  | some c => (c.block_public_acls.getD false, c.block_public_policy.getD false,
      c.ignore_public_acls.getD false, c.restrict_public_buckets.getD false)

/-- Looping over a fetched public-access-block always populates exactly the
four block columns: both constructors of the source type produce all four
entries. -/
lemma foldl_applyPabBlock_get (x : Option PabConfig) (base : CsvOutput) :
    (get_public_access_block x).foldl applyPabBlock base =
      { base with
        block_public_acls := some (pabBools x).1,
        block_public_policy := some (pabBools x).2.1,
        ignore_public_acls := some (pabBools x).2.2.1,
        restrict_public_buckets := some (pabBools x).2.2.2 } := by
  cases x <;> rfl

/-- The `policy_wildcard_principals` column of the CSV encoding, pushed
through the public-access-block loop. -/
lemma fromReport_pwp (r : Report) :
    (CsvOutput.fromReport r).policy_wildcard_principals =
      r.policy.map (fun p =>
        match p with
        | none => false
        | some policy => decide (policy.wildcards > 0)) := by
  cases hpb : r.public_access_block with
  | none => rw [fromReport_none_pab r hpb]; rfl
  | some blocks =>
    rw [fromReport_some_pab r blocks hpb,
      (foldl_applyPabBlock_preserves blocks (csvBase r)).2.2.2.2.2.1]
    rfl

/-- C10.  With the policy audit enabled, the `policy_wildcard_principals`
CSV column is `false` both for an audited bucket without a policy
(`Some(None)` slot) and for an audited bucket whose policy has zero
wildcards, so the CSV row cannot tell the two apart; the column is omitted
exactly when the policy audit did not run. -/
theorem csv_policy_column_conflates_absent_and_clean :
    ∀ r : Report,
      ((CsvOutput.fromReport r).policy_wildcard_principals = none ↔ r.policy = none)
      ∧ (r.policy = some none →
          (CsvOutput.fromReport r).policy_wildcard_principals = some false)
      ∧ (∀ pol : BucketPolicy, r.policy = some (some pol) → pol.wildcards = 0 →
          (CsvOutput.fromReport r).policy_wildcard_principals = some false) := by
  intro r
  refine ⟨?_, ?_, ?_⟩
  · rw [fromReport_pwp]
    exact Option.map_eq_none'
  · intro h
    rw [fromReport_pwp, h]
    rfl
  · intro pol h h0
    rw [fromReport_pwp, h]
    simp [h0]

/-- An audited bucket with no policy. -/
def exampleReportAbsent : Report :=
  ⟨"bucket-a", none, none, none, some none, none, none, none⟩

/-- An audited bucket whose policy has no wildcard entities. -/
def exampleReportClean : Report :=
  ⟨"bucket-b", none, none, none, some (some ⟨["s3:GetObject"], []⟩),
   none, none, none⟩

/-- Witness for C10: both concrete reports yield the identical `some false`
column. -/
theorem csv_policy_column_conflates_witness :
    (CsvOutput.fromReport exampleReportAbsent).policy_wildcard_principals
      = some false
    ∧ (CsvOutput.fromReport exampleReportClean).policy_wildcard_principals
      = some false :=
  ⟨(csv_policy_column_conflates_absent_and_clean exampleReportAbsent).2.1 rfl,
   (csv_policy_column_conflates_absent_and_clean exampleReportClean).2.2
     ⟨["s3:GetObject"], []⟩ rfl rfl⟩

/-- The header serde derives from any orchestrator report depends only on
the enabled audit set, never on the fetched values. -/
lemma header_of_bucketReport (bucket : String) (audits : List Audit)
    (resp : Responses) :
    headerFields (CsvOutput.fromReport (bucketReport bucket audits resp).1) =
      auditHeader audits := by
  have hany : ([Audit.MfaDelete, Audit.Versioning].any
        (fun x => audits.contains x))
      = (audits.contains Audit.MfaDelete || audits.contains Audit.Versioning) := by
    simp [List.any_cons, List.any_nil]
  have hacl : (bucketReport bucket audits resp).1.acl
      = (if audits.contains Audit.Acl then some resp.acl else none) := rfl
  have henc : (bucketReport bucket audits resp).1.encryption
      = (if audits.contains Audit.ServerSideEncryption
         then some resp.encryption else none) := rfl
  have hlog : (bucketReport bucket audits resp).1.logging
      = (if audits.contains Audit.Logging then some resp.logging else none) := rfl
  have hpol : (bucketReport bucket audits resp).1.policy
      = (if audits.contains Audit.Policy then some resp.policy else none) := rfl
  have hver : (bucketReport bucket audits resp).1.versioning
      = (if [Audit.MfaDelete, Audit.Versioning].any (fun x => audits.contains x)
         then some resp.versioning else none) := rfl
  rw [hany] at hver
  have hweb : (bucketReport bucket audits resp).1.website
      = (if audits.contains Audit.Website then some resp.website else none) := rfl
  have hpb : (bucketReport bucket audits resp).1.public_access_block
      = (if audits.contains Audit.PublicAccessBlocks
         then some (get_public_access_block resp.public_access_block)
         else none) := rfl
  cases hbB : audits.contains Audit.PublicAccessBlocks with
  | false =>
    rw [hbB] at hpb
    rw [fromReport_none_pab _ (by simpa using hpb)]
    simp only [headerFields, csvBase, hacl, henc, hlog, hpol, hver, hweb,
      option_map_ite, optHeader_ite, auditHeader, hbB]
    rfl
  | true =>
    rw [hbB] at hpb
    rw [fromReport_some_pab _ _ (by simpa using hpb),
      foldl_applyPabBlock_get]
    simp only [headerFields, csvBase, hacl, henc, hlog, hpol, hver, hweb,
      option_map_ite, optHeader_ite, auditHeader, hbB]
    rfl

/-- Once the shared writer has emitted its header, each further serialized
report appends exactly its one data row. -/
lemma foldl_serialize_written :
    ∀ (reports : List Report) (w : CsvWriter), w.header_written = true →
      ((reports.foldl
          (fun (w : CsvWriter) r => w.serialize (CsvOutput.fromReport r))
          w).lines
        = w.lines ++ reports.map (fun r => rowCells (CsvOutput.fromReport r)))
      ∧ (reports.foldl
          (fun (w : CsvWriter) r => w.serialize (CsvOutput.fromReport r))
          w).header_written = true := by
  intro reports
  induction reports with
  | nil => intro w hw; exact ⟨by simp, hw⟩
  | cons r rest ih =>
    intro w hw
    have hser : w.serialize (CsvOutput.fromReport r)
        = ⟨true, w.lines ++ [rowCells (CsvOutput.fromReport r)]⟩ := by
      simp [CsvWriter.serialize, hw]
    obtain ⟨h1, h2⟩ := ih (w.serialize (CsvOutput.fromReport r)) (by rw [hser])
    refine ⟨?_, by simpa using h2⟩
    rw [List.foldl_cons, h1, hser]
    simp

/-- C8.  Rendering one or more orchestrator reports that share the same
enabled audit set through the shared CSV writer emits exactly one header
row — not one per bucket — followed by one data row per report, and every
emitted line has the same number of columns as the header. -/
theorem csv_one_header_then_rows :
    ∀ (audits : List Audit) (first : String × Responses)
      (rest : List (String × Responses)),
      (Reports.csv ((first :: rest).map
          (fun q => (bucketReport q.1 audits q.2).1))
        = auditHeader audits ::
            (first :: rest).map
              (fun q => rowCells (CsvOutput.fromReport (bucketReport q.1 audits q.2).1)))
      ∧ (Reports.csv ((first :: rest).map
          (fun q => (bucketReport q.1 audits q.2).1))).length
          = (first :: rest).length + 1
      ∧ ∀ line ∈ Reports.csv ((first :: rest).map
          (fun q => (bucketReport q.1 audits q.2).1)),
          line.length = (auditHeader audits).length := by
  intro audits first rest
  have hw0 : (⟨false, []⟩ : CsvWriter).serialize
      (CsvOutput.fromReport (bucketReport first.1 audits first.2).1)
      = ⟨true, [headerFields (CsvOutput.fromReport (bucketReport first.1 audits first.2).1),
          rowCells (CsvOutput.fromReport (bucketReport first.1 audits first.2).1)]⟩ := rfl
  have hmain : Reports.csv ((first :: rest).map
      (fun q => (bucketReport q.1 audits q.2).1))
      = auditHeader audits ::
          (first :: rest).map
            (fun q => rowCells (CsvOutput.fromReport (bucketReport q.1 audits q.2).1)) := by
    simp only [Reports.csv, List.map_cons, List.foldl_cons, hw0]
    rw [(foldl_serialize_written _ _ rfl).1]
    simp [List.map_map, header_of_bucketReport, Function.comp]
  refine ⟨hmain, ?_, ?_⟩
  · rw [hmain]
    simp
  · intro line hline
    rw [hmain] at hline
    rcases List.mem_cons.mp hline with h | h
    · rw [h]
    · rw [List.mem_map] at h
      obtain ⟨q, _, hq⟩ := h
      rw [← hq, rowCells_length, header_of_bucketReport]

/-- Concrete fetch results used by the C8 witness. -/
def exampleResponses : Responses :=
  ⟨BucketAcl.Private, BucketEncryption.None, BucketLogging.Disabled, none,
   none, ⟨MfaStatus.Disabled, VersioningStatus.Suspended⟩,
   BucketWebsite.Disabled⟩

/-- Witness for C8: two buckets audited for policy only produce three
lines — one header and two rows. -/
theorem csv_one_header_then_rows_witness :
    (Reports.csv ((("bucket-a", exampleResponses) ::
        [("bucket-b", exampleResponses)]).map
        (fun q => (bucketReport q.1 [Audit.Policy] q.2).1))).length
      = (("bucket-a", exampleResponses) ::
          [("bucket-b", exampleResponses)]).length + 1 :=
  (csv_one_header_then_rows [Audit.Policy] ("bucket-a", exampleResponses)
    [("bucket-b", exampleResponses)]).2.1

end S3Audit
